import Mathlib

/-!
Verification development for the tick-backend submission pipeline.

The definitions below are a shallow embedding of the JavaScript source:

* `handlePdfUpload` / `uploadSubmission` embed the grading controller
  (the PDF submission orchestrator): page rendering via Cloudinary,
  region extraction and grading via two FastAPI endpoints, and the two
  Mongoose `student.save()` persistence points.  External services are
  supplied through an `Env` record (one run observes fixed oracle
  answers); the run produces the final persisted assignment entry, an
  ordered trace of network calls and document writes, and the thrown
  error or returned responses.
* `marginCropImage` embeds `modules/marginCropImages.js` per decoded
  image; OpenCV primitives that live outside the repository (grayscale,
  blur, Sobel, Otsu, morphological close) are abstract `CvOps` fields,
  while everything the repository computes itself (absolute value,
  rescale divisor, left-half column sums, arg-max, crop rectangle) is
  modelled concretely.  Matrices carry rational entries; the source
  matrices hold doubles, and the exercised facts (all-zero images,
  column sums, comparisons) do not depend on that difference.
* `statusAfter` embeds the status writes of the AI grading controller
  and the schema enums of `models/questionModel.js`.
-/

namespace TickBackend

/-- One entry of the `uploads` array returned by the region-extraction
service: `{ question_id, image_url }`.  The controller maps it to
`finalResponses` keeping exactly these two fields, so the map is the
identity here. -/
structure Upload where
  question_id : String
  image_url : String
deriving DecidableEq, Repr

/-- One entry of `results` from the grading endpoint:
`{ question_id, correct_steps, incorrect_steps, total_awarded,
total_deducted }`. -/
structure GradedResult where
  question_id : String
  correct_steps : List String
  incorrect_steps : List String
  total_awarded : Int
  total_deducted : Int
deriving DecidableEq, Repr

/-- One entry of the persisted `responses` array. -/
structure Response where
  question_id : String
  image_url : String
  correct_steps : List String
  incorrect_steps : List String
  total_awarded : Int
  total_deducted : Int
deriving DecidableEq, Repr

/-- One populated question of the assignment (its Mongo id and rubric
text). -/
structure Question where
  id : String
  rubric : String
deriving DecidableEq, Repr

/-- One entry of the grading request body `{ questions: [...] }`. -/
structure QuestionToGrade where
  question_id : String
  image_url : String
  rubric : String
deriving DecidableEq, Repr

/-- The mutable part of one `studentAssignmentSchema` subdocument that
the pipeline reads and writes. -/
structure AssignmentEntry where
  status : String
  submissionDate : Option Nat
  responses : List Response
deriving DecidableEq, Repr

/-- Result of `cloudinary.uploader.upload` for the PDF: the stored
public id and the page count used by the URL loop. -/
structure UploadResult where
  public_id : String
  pages : Nat
deriving DecidableEq, Repr

/-- Typed counterpart of the errors thrown by `handlePdfUpload`. -/
inductive PipeError where
  | renderError
  | studentNotFound
  | entryNotFound
  | noFastApiUrl
  | extractError
  | assignmentNotFound
  | gradeError
  | mergeTypeError
deriving DecidableEq, Repr

/-- Observable steps of one run: the three outbound network calls and
the document writes (`student.save()`), each write carrying the
snapshot of the assignment entry it persists. -/
inductive Event where
  | netRender
  | netExtract (urls : List String)
  | netGrade (questions : List QuestionToGrade)
  | persist (entry : AssignmentEntry)
deriving DecidableEq, Repr

/-- External world of one run: answers of Cloudinary, the document
store and the two FastAPI endpoints, fixed for the run. -/
structure Env where
  renderResult : Option UploadResult
  cloudinaryUrl : String → Nat → String
  studentFound : Bool
  entryFound : Bool
  fastApiUrl : Option String
  extractResult : Option (List Upload)
  assignmentFound : Option (List Question)
  gradeResult : Option (List GradedResult)
  now : Nat

/-- Outcome of `handlePdfUpload`: final persisted entry, trace of
events in execution order, and result (returned responses or thrown
error). -/
structure RunResult where
  entry : AssignmentEntry
  trace : List Event
  result : Except PipeError (List Response)
deriving Repr

/-- Grading request items: `finalResponses.map` joining each upload
with the rubric found in the populated assignment questions
(`q ? q.rubric : ""`). -/
def questionsToGrade (questions : List Question) (finalResponses : List Upload) :
    List QuestionToGrade :=
  finalResponses.map fun u =>
    { question_id := u.question_id
      image_url := u.image_url
      rubric :=
        match questions.find? (fun x => x.id == u.question_id) with
        | some q => q.rubric
        | none => "" }

/-- The merge `gradedResults.map`: each graded result is paired with
`finalResponses.find(r => r.question_id === gr.question_id)` and reads
`orig.image_url`.  When the lookup misses, `orig` is `undefined` and
the member access throws, which the `Option` models as `none`. -/
def mergeResponses (finalResponses : List Upload) :
    List GradedResult → Option (List Response)
  | [] => some []
  | gr :: rest =>
    match finalResponses.find? (fun r => r.question_id == gr.question_id) with
    | none => none
    | some orig =>
      match mergeResponses finalResponses rest with
      | none => none
      | some tail =>
        some ({ question_id := gr.question_id
                image_url := orig.image_url
                correct_steps := gr.correct_steps
                incorrect_steps := gr.incorrect_steps
                total_awarded := gr.total_awarded
                total_deducted := gr.total_deducted } :: tail)

/-- Shallow embedding of `handlePdfUpload` in `part_010` of the
grading controller.  Stage order follows the source: Cloudinary PDF
upload and per-page URL loop, student and entry lookup, the
`submissionDate` write plus save, the region-extraction POST, the
assignment lookup and grading request build, the grading POST, the
merge, and the final save of `responses` with `status = "graded"`.
The catch block only logs and rethrows, so on error the function
returns the entry as last persisted. -/
def handlePdfUpload (env : Env) (entry : AssignmentEntry) : RunResult :=
  match env.renderResult with
  | none => ⟨entry, [.netRender], .error .renderError⟩
  | some up =>
    let urls := (List.range up.pages).map fun i => env.cloudinaryUrl up.public_id (i + 1)
    if !env.studentFound then ⟨entry, [.netRender], .error .studentNotFound⟩
    else if !env.entryFound then ⟨entry, [.netRender], .error .entryNotFound⟩
    else
      let entry1 : AssignmentEntry := { entry with submissionDate := some env.now }
      match env.fastApiUrl with
      | none => ⟨entry1, [.netRender, .persist entry1], .error .noFastApiUrl⟩
      | some _ =>
        match env.extractResult with
        | none =>
          ⟨entry1, [.netRender, .persist entry1, .netExtract urls], .error .extractError⟩
        | some uploads =>
          let finalResponses := uploads
          match env.assignmentFound with
          | none =>
            ⟨entry1, [.netRender, .persist entry1, .netExtract urls],
              .error .assignmentNotFound⟩
          | some questions =>
            let qtg := questionsToGrade questions finalResponses
            match env.gradeResult with
            | none =>
              ⟨entry1,
                [.netRender, .persist entry1, .netExtract urls, .netGrade qtg],
                .error .gradeError⟩
            | some graded =>
              match mergeResponses finalResponses graded with
              | none =>
                ⟨entry1,
                  [.netRender, .persist entry1, .netExtract urls, .netGrade qtg],
                  .error .mergeTypeError⟩
              | some combined =>
                let entry2 : AssignmentEntry :=
                  { entry1 with responses := combined, status := "graded" }
                ⟨entry2,
                  [.netRender, .persist entry1, .netExtract urls, .netGrade qtg,
                    .persist entry2],
                  .ok combined⟩

/-- HTTP reply of the `uploadSubmission` express handler. -/
structure HttpReply where
  statusCode : Nat
  success : Bool
deriving DecidableEq, Repr

/-- Embedding of the exported `uploadSubmission` handler: 400 without a
file, 200 on success, 500 with the thrown error otherwise. -/
def uploadSubmission (fileProvided : Bool) (env : Env) (entry : AssignmentEntry) :
    HttpReply × AssignmentEntry :=
  if fileProvided then
    match handlePdfUpload env entry with
    | ⟨entry', _, .ok _⟩ => (⟨200, true⟩, entry')
    | ⟨entry', _, .error _⟩ => (⟨500, false⟩, entry')
  else (⟨400, false⟩, entry)

/-- True for the events that are outbound network calls. -/
def Event.isNet : Event → Bool
  | .netRender => true
  | .netExtract _ => true
  | .netGrade _ => true
  | .persist _ => false

/-- True for a document write whose snapshot carries a submission
date, that is a write at or after the durability checkpoint. -/
def Event.isCheckpoint : Event → Bool
  | .persist e => e.submissionDate.isSome
  | _ => false

/-- True for the page-rendering upload call. -/
def Event.isRender : Event → Bool
  | .netRender => true
  | _ => false

/-- Scans a trace and checks that every network call is preceded by a
persisted submission-date checkpoint; `seen` records whether a
checkpoint write occurred earlier. -/
def netsAfterCheckpoint : List Event → Bool → Bool
  | [], _ => true
  | e :: rest, seen =>
    (!e.isNet || seen) && netsAfterCheckpoint rest (seen || e.isCheckpoint)

/-- Number of region-extraction calls in a trace. -/
def extractCalls (t : List Event) : Nat :=
  t.countP fun e => match e with | .netExtract _ => true | _ => false

/-! ### Axios request options

Both FastAPI calls are `axios.post(url, body)` with no third options
argument, so the per-request options object is empty and axios falls
back to its defaults (`timeout: 0`, meaning no bound).  There is no
retry loop around either call. -/

/-- Subset of axios request options relevant to the timeout claim;
`timeout = none` models an absent option (axios default: wait without
bound). -/
structure AxiosOptions where
  timeout : Option Nat := none
deriving DecidableEq, Repr

/-- Options passed at the region-extraction call site
(`axios.post(fastApiUrl, { urls })`): none, hence the defaults. -/
def extractionRequestOptions : AxiosOptions := {}

/-- Options passed at the grading call site
(`axios.post(gradeUrl, { questions })`): none as well. -/
def gradingRequestOptions : AxiosOptions := {}

/-! ### Status writes across the controllers

The status state machine is driven by the writes in
`aiGradingController.js`, the grading controller and the schema
defaults of `models/questionModel.js`. -/

/-- The `validStatuses` list of `updateGrades`
(aiGradingController.js lines 150-157). -/
def validStatuses : List String :=
  ["pending", "submitted", "processing", "completed", "graded", "failed"]

/-- Status enum of the `studentAssignmentSchema` at
questionModel.js lines 137-141. -/
def statusEnumMid : List String :=
  ["pending", "processing", "graded", "failed"]

/-- Status enum of the `studentAssignmentSchema` at
questionModel.js lines 263-266. -/
def statusEnumLast : List String :=
  ["pending", "submitted", "processing", "graded", "failed"]

/-- Status value `updateGrades` persists for a requested value:
a valid requested status is stored as is, an invalid one is rejected
with HTTP 400 (no write), and a missing one defaults to
`"completed"`. -/
def updateGradesStatus (requested : Option String) (current : String) : String :=
  match requested with
  | some s => if validStatuses.contains s then s else current
  | none => "completed"

/-- The operations of the system that write the `status` field of an
assignment entry. -/
inductive AttemptOp where
  | create
  | startGrading
  | updateGrades (requested : Option String)
  | debugUpdateSolution
  | pdfUploadSuccess
  | pdfUploadFailure
deriving DecidableEq, Repr

/-- Status stored after each status-writing operation: schema default
`"pending"` on creation, `"processing"` in `startGrading`, the
`updateGrades` logic above, `"graded"` in `debugUpdateSolution` and in
a successful `handlePdfUpload`, and no write on a failed
`handlePdfUpload`. -/
def statusAfter : AttemptOp → String → String
  | .create, _ => "pending"
  | .startGrading, _ => "processing"
  | .updateGrades requested, current => updateGradesStatus requested current
  | .debugUpdateSolution, _ => "graded"
  | .pdfUploadSuccess, _ => "graded"
  | .pdfUploadFailure, current => current

/-! ### Margin segmenter (`modules/marginCropImages.js`)

One decoded image is a matrix of rational pixel values.  The OpenCV
primitives used by the module but implemented outside the repository
are abstract functions in `CvOps`; the arithmetic the module performs
itself is concrete. -/

/-- A decoded raster image: `rows × cols` entries addressed as
`atRaw y x` (row first, like `mat.atRaw(y, x)`). -/
structure Mat where
  rows : Nat
  cols : Nat
  atRaw : Nat → Nat → ℚ

/-- Elementwise absolute value (`sobel.abs()`). -/
def Mat.absMat (m : Mat) : Mat :=
  ⟨m.rows, m.cols, fun y x => |m.atRaw y x|⟩

/-- Division of every entry by a scalar (`mat.div(d)`). -/
def Mat.divScalar (m : Mat) (d : ℚ) : Mat :=
  ⟨m.rows, m.cols, fun y x => m.atRaw y x / d⟩

/-- Multiplication of every entry by a scalar (`mat.mul(k)`). -/
def Mat.mulScalar (m : Mat) (k : ℚ) : Mat :=
  ⟨m.rows, m.cols, fun y x => m.atRaw y x * k⟩

/-- In-bounds entries listed row by row. -/
def Mat.entries (m : Mat) : List ℚ :=
  (List.range m.rows).flatMap fun y => (List.range m.cols).map fun x => m.atRaw y x

/-- Largest value of a list, `none` on the empty list (models the
spread `Math.max(...)` which has no finite value on an empty array). -/
def listMax : List ℚ → Option ℚ
  | [] => none
  | a :: rest =>
    some (match listMax rest with
      | none => a
      | some m => max a m)

/-- First index of a value in a list, `none` when absent (models
`Array.prototype.indexOf`, whose miss value -1 never occurs below
because the searched value is the maximum of the same list). -/
def idxOf (v : ℚ) : List ℚ → Option Nat
  | [] => none
  | a :: rest => if a = v then some 0 else (idxOf v rest).map (· + 1)

/-- Largest in-bounds entry (`mat.max()`); 0 on an empty matrix.  The
module applies it to the absolute Sobel image, whose entries are all
nonnegative, so the default cannot mask a negative maximum there. -/
def Mat.maxVal (m : Mat) : ℚ :=
  (listMax m.entries).getD 0

/-- Sub-matrix `mat.getRegion(new cv.Rect(x, y, w, h))`. -/
def Mat.getRegion (m : Mat) (x y w h : Nat) : Mat :=
  ⟨h, w, fun r c => m.atRaw (y + r) (x + c)⟩

/-- OpenCV primitives the module calls but does not implement:
grayscale conversion, the 5×5 Gaussian blur, the order-(1,0) Sobel
filter of kernel size 3, the CV_8U conversion, the Otsu threshold and
the morphological close with a rectangular kernel of the given width
and height. -/
structure CvOps where
  cvtColorGray : Mat → Mat
  gaussianBlur5 : Mat → Mat
  sobelX : Mat → Mat
  convertTo8U : Mat → Mat
  otsuThreshold : Mat → Mat
  morphClose : Nat → Nat → Mat → Mat

/-- Kernel height `Math.max(5, Math.floor(h / 50))`. -/
def kernelHeight (h : Nat) : Nat := max 5 (h / 50)

/-- Divisor of the rescale step: `maxVal === 0 ? 1 : maxVal`. -/
def sobelDivisor (maxVal : ℚ) : ℚ :=
  if maxVal = 0 then 1 else maxVal

/-- Absolute Sobel image `absS` of the pipeline. -/
def sobelAbsOf (ops : CvOps) (img : Mat) : Mat :=
  (ops.sobelX (ops.gaussianBlur5 (ops.cvtColorGray img))).absMat

/-- The rescaled image `scaled` before the CV_8U conversion:
`absS.div(maxVal === 0 ? 1 : maxVal).mul(255)`. -/
def scaledOf (ops : CvOps) (img : Mat) : Mat :=
  ((sobelAbsOf ops img).divScalar (sobelDivisor (sobelAbsOf ops img).maxVal)).mulScalar 255

/-- The closed binary image `closed`: Otsu threshold of the converted
rescaled image, morphologically closed with a 3 × `kernelHeight`
rectangle. -/
def closedOf (ops : CvOps) (img : Mat) : Mat :=
  ops.morphClose 3 (kernelHeight img.rows)
    (ops.otsuThreshold (ops.convertTo8U (scaledOf ops img)))

/-- The left half `closed.getRegion(new cv.Rect(0, 0, floor(w / 2), h))`
where `w` and `h` are the dimensions of the original image. -/
def leftHalf (ops : CvOps) (img : Mat) : Mat :=
  (closedOf ops img).getRegion 0 0 (img.cols / 2) img.rows

/-- Per-column sums of a matrix, one entry per column: the loops
filling `colSums`. -/
def colSums (m : Mat) : List ℚ :=
  (List.range m.cols).map fun x =>
    ((List.range m.rows).map fun y => m.atRaw y x).sum

/-- Output for one decodable image: the crop, the split column and the
winning column sum. -/
structure CropResult where
  cropMat : Mat
  marginX : Nat
  marginSum : ℚ

/-- Per-file body of `marginCropImages`: column sums over the left
half of the closed image, `marginX = colSums.indexOf(Math.max(...))`,
`marginSum = colSums[marginX]`, and the crop of the original image to
columns `[0, marginX)`.  When the left half has no column, the spread
maximum is -Infinity, `indexOf` yields -1 and `getRegion` with a
negative width throws; that path is `none`. -/
def marginCropImage (ops : CvOps) (img : Mat) : Option CropResult :=
  let cs := colSums (leftHalf ops img)
  match listMax cs with
  | none => none
  | some m =>
    match idxOf m cs with
    | none => none
    | some marginX =>
      some { cropMat := img.getRegion 0 0 marginX img.rows
             marginX := marginX
             marginSum := (cs[marginX]?).getD 0 }

/-! ### Lemmas about the merge step -/

theorem mergeResponses_map_question_id (ups : List Upload) :
    ∀ (graded : List GradedResult) (resp : List Response),
      mergeResponses ups graded = some resp →
      resp.map Response.question_id = graded.map GradedResult.question_id := by
  intro graded
  induction graded with
  | nil =>
    intro resp h
    simp only [mergeResponses, Option.some.injEq] at h
    simp [← h]
  | cons gr rest ih =>
    intro resp h
    unfold mergeResponses at h
    cases hf : ups.find? (fun r => r.question_id == gr.question_id) with
    | none => rw [hf] at h; exact absurd h (by simp)
    | some orig =>
      rw [hf] at h
      cases hm : mergeResponses ups rest with
      | none => rw [hm] at h; exact absurd h (by simp)
      | some tail =>
        rw [hm] at h
        simp only [Option.some.injEq] at h
        subst h
        simp [ih tail hm]

theorem mergeResponses_image_url (ups : List Upload) :
    ∀ (graded : List GradedResult) (resp : List Response),
      mergeResponses ups graded = some resp →
      ∀ r ∈ resp,
        (ups.find? (fun u => u.question_id == r.question_id)).map Upload.image_url
          = some r.image_url := by
  intro graded
  induction graded with
  | nil =>
    intro resp h
    simp only [mergeResponses, Option.some.injEq] at h
    simp [← h]
  | cons gr rest ih =>
    intro resp h r hr
    unfold mergeResponses at h
    cases hf : ups.find? (fun u => u.question_id == gr.question_id) with
    | none => rw [hf] at h; exact absurd h (by simp)
    | some orig =>
      rw [hf] at h
      cases hm : mergeResponses ups rest with
      | none => rw [hm] at h; exact absurd h (by simp)
      | some tail =>
        rw [hm] at h
        simp only [Option.some.injEq] at h
        subst h
        rcases List.mem_cons.mp hr with hhead | htail
        · subst hhead
          simp [hf]
        · exact ih tail hm r htail

theorem mergeResponses_mem_region (ups : List Upload) :
    ∀ (graded : List GradedResult) (resp : List Response),
      mergeResponses ups graded = some resp →
      ∀ r ∈ resp, r.question_id ∈ ups.map Upload.question_id := by
  intro graded resp h r hr
  have h1 := mergeResponses_image_url ups graded resp h r hr
  cases hf : ups.find? (fun u => u.question_id == r.question_id) with
  | none => rw [hf] at h1; exact absurd h1 (by simp)
  | some orig =>
    have hmem := List.mem_of_find?_eq_some hf
    have hp := List.find?_some hf
    have heq : orig.question_id = r.question_id := by simpa using hp
    exact heq ▸ List.mem_map_of_mem Upload.question_id hmem

theorem mergeResponses_none_of_missing (ups : List Upload) :
    ∀ (graded : List GradedResult) (gr : GradedResult),
      gr ∈ graded → gr.question_id ∉ ups.map Upload.question_id →
      mergeResponses ups graded = none := by
  intro graded
  induction graded with
  | nil => intro gr h; exact absurd h (List.not_mem_nil gr)
  | cons hd rest ih =>
    intro gr hmem hmiss
    unfold mergeResponses
    rcases List.mem_cons.mp hmem with hhead | htail
    · subst hhead
      have hf : ups.find? (fun r => r.question_id == gr.question_id) = none := by
        rw [List.find?_eq_none]
        intro u hu
        simp only [beq_iff_eq]
        intro hqe
        exact hmiss (hqe ▸ List.mem_map_of_mem Upload.question_id hu)
      rw [hf]
    · rw [ih gr htail hmiss]
      cases ups.find? (fun r => r.question_id == hd.question_id) <;> rfl

theorem questionsToGrade_map_question_id (qs : List Question) (ups : List Upload) :
    (questionsToGrade qs ups).map QuestionToGrade.question_id
      = ups.map Upload.question_id := by
  simp [questionsToGrade, List.map_map, Function.comp_def]

/-! ### Lemmas about the orchestrator run -/

theorem handlePdfUpload_ok_elim (env : Env) (entry : AssignmentEntry)
    (resp : List Response)
    (h : (handlePdfUpload env entry).result = .ok resp) :
    ∃ uploads graded qs,
      env.extractResult = some uploads ∧
      env.gradeResult = some graded ∧
      env.assignmentFound = some qs ∧
      mergeResponses uploads graded = some resp ∧
      (handlePdfUpload env entry).entry
        = ⟨"graded", some env.now, resp⟩ := by
  rcases env with ⟨rr, cu, sf, ef, fa, er, af, gre, now⟩
  cases rr with
  | none => exact absurd h (by simp [handlePdfUpload])
  | some up =>
  cases sf with
  | false => exact absurd h (by simp [handlePdfUpload])
  | true =>
  cases ef with
  | false => exact absurd h (by simp [handlePdfUpload])
  | true =>
  cases fa with
  | none => exact absurd h (by simp [handlePdfUpload])
  | some f =>
  cases er with
  | none => exact absurd h (by simp [handlePdfUpload])
  | some uploads =>
  cases af with
  | none => exact absurd h (by simp [handlePdfUpload])
  | some qs =>
  cases gre with
  | none => exact absurd h (by simp [handlePdfUpload])
  | some graded =>
  refine ⟨uploads, graded, qs, rfl, rfl, rfl, ?_⟩
  cases hm : mergeResponses uploads graded with
  | none => simp [handlePdfUpload, hm] at h
  | some combined =>
    simp only [handlePdfUpload, hm] at h ⊢
    simp at h
    subst h
    simp [hm]

/-- Exhaustive description of a run: the five possible shapes of the
final entry, the event trace and the result, in stage order. -/
theorem handlePdfUpload_shape (env : Env) (entry : AssignmentEntry) :
    (∃ e, handlePdfUpload env entry = ⟨entry, [.netRender], .error e⟩) ∨
    (handlePdfUpload env entry =
      ⟨{ entry with submissionDate := some env.now },
        [.netRender, .persist { entry with submissionDate := some env.now }],
        .error .noFastApiUrl⟩) ∨
    (∃ urls e, (e = PipeError.extractError ∨ e = PipeError.assignmentNotFound) ∧
      handlePdfUpload env entry =
        ⟨{ entry with submissionDate := some env.now },
          [.netRender, .persist { entry with submissionDate := some env.now },
            .netExtract urls],
          .error e⟩) ∨
    (∃ urls uploads qs e,
      env.extractResult = some uploads ∧ env.assignmentFound = some qs ∧
      (e = PipeError.gradeError ∨ e = PipeError.mergeTypeError) ∧
      handlePdfUpload env entry =
        ⟨{ entry with submissionDate := some env.now },
          [.netRender, .persist { entry with submissionDate := some env.now },
            .netExtract urls, .netGrade (questionsToGrade qs uploads)],
          .error e⟩) ∨
    (∃ urls uploads qs graded resp,
      env.extractResult = some uploads ∧ env.assignmentFound = some qs ∧
      env.gradeResult = some graded ∧ mergeResponses uploads graded = some resp ∧
      handlePdfUpload env entry =
        ⟨⟨"graded", some env.now, resp⟩,
          [.netRender, .persist { entry with submissionDate := some env.now },
            .netExtract urls, .netGrade (questionsToGrade qs uploads),
            .persist ⟨"graded", some env.now, resp⟩],
          .ok resp⟩) := by
  rcases env with ⟨rr, cu, sf, ef, fa, er, af, gre, now⟩
  cases rr with
  | none => exact Or.inl ⟨.renderError, by simp [handlePdfUpload]⟩
  | some up =>
  cases sf with
  | false => exact Or.inl ⟨.studentNotFound, by simp [handlePdfUpload]⟩
  | true =>
  cases ef with
  | false => exact Or.inl ⟨.entryNotFound, by simp [handlePdfUpload]⟩
  | true =>
  cases fa with
  | none => exact Or.inr (Or.inl (by simp [handlePdfUpload]))
  | some f =>
  cases er with
  | none =>
    exact Or.inr (Or.inr (Or.inl ⟨((List.range up.pages).map fun i => cu up.public_id (i + 1)), _, Or.inl rfl, by simp [handlePdfUpload]⟩))
  | some uploads =>
  cases af with
  | none =>
    exact Or.inr (Or.inr (Or.inl ⟨((List.range up.pages).map fun i => cu up.public_id (i + 1)), _, Or.inr rfl, by simp [handlePdfUpload]⟩))
  | some qs =>
  cases gre with
  | none =>
    exact Or.inr (Or.inr (Or.inr (Or.inl
      ⟨((List.range up.pages).map fun i => cu up.public_id (i + 1)), uploads, qs, _, rfl, rfl, Or.inl rfl, by simp [handlePdfUpload]⟩)))
  | some graded =>
  cases hm : mergeResponses uploads graded with
  | none =>
    exact Or.inr (Or.inr (Or.inr (Or.inl
      ⟨((List.range up.pages).map fun i => cu up.public_id (i + 1)), uploads, qs, _, rfl, rfl, Or.inr rfl, by simp [handlePdfUpload, hm]⟩)))
  | some combined =>
    exact Or.inr (Or.inr (Or.inr (Or.inr
      ⟨((List.range up.pages).map fun i => cu up.public_id (i + 1)), uploads, qs, graded, combined, rfl, rfl, rfl, hm,
        by simp [handlePdfUpload, hm]⟩)))

/-! ### Lemmas about the margin segmenter -/

theorem listMax_mem : ∀ (l : List ℚ) (m : ℚ), listMax l = some m → m ∈ l := by
  intro l
  induction l with
  | nil => intro m h; exact absurd h (by simp [listMax])
  | cons a rest ih =>
    intro m h
    cases hr : listMax rest with
    | none =>
      simp only [listMax, hr, Option.some.injEq] at h
      simp [← h]
    | some mr =>
      simp only [listMax, hr, Option.some.injEq] at h
      rcases max_choice a mr with hc | hc
      · rw [hc] at h; simp [← h]
      · rw [hc] at h; exact List.mem_cons_of_mem a (h ▸ ih mr hr)

theorem listMax_ge : ∀ (l : List ℚ) (m : ℚ), listMax l = some m → ∀ a ∈ l, a ≤ m := by
  intro l
  induction l with
  | nil => intro m _ a ha; exact absurd ha (List.not_mem_nil a)
  | cons b rest ih =>
    intro m h a ha
    cases hr : listMax rest with
    | none =>
      cases rest with
      | nil =>
        simp only [listMax, Option.some.injEq] at h
        rcases List.mem_cons.mp ha with hab | hrest
        · subst hab; exact le_of_eq h
        · exact absurd hrest (List.not_mem_nil a)
      | cons c t => exact absurd hr (by simp [listMax])
    | some mr =>
      simp only [listMax, hr, Option.some.injEq] at h
      rcases List.mem_cons.mp ha with hab | hrest
      · subst hab; rw [← h]; exact le_max_left a mr
      · exact le_trans (ih mr hr a hrest) (h ▸ le_max_right b mr)

theorem listMax_isSome : ∀ l : List ℚ, l ≠ [] → ∃ m, listMax l = some m := by
  intro l h
  cases l with
  | nil => exact absurd rfl h
  | cons a rest => exact ⟨_, rfl⟩

theorem idxOf_getElem? : ∀ (l : List ℚ) (v : ℚ) (i : Nat),
    idxOf v l = some i → l[i]? = some v := by
  intro l
  induction l with
  | nil => intro v i h; exact absurd h (by simp [idxOf])
  | cons a rest ih =>
    intro v i h
    simp only [idxOf] at h
    by_cases hav : a = v
    · rw [if_pos hav] at h
      simp only [Option.some.injEq] at h
      subst h
      simp [hav]
    · rw [if_neg hav] at h
      cases hr : idxOf v rest with
      | none => rw [hr] at h; exact absurd h (by simp)
      | some j =>
        rw [hr] at h
        simp only [Option.map_some', Option.some.injEq] at h
        subst h
        simpa using ih v j hr

theorem idxOf_first : ∀ (l : List ℚ) (v : ℚ) (i : Nat),
    idxOf v l = some i → ∀ j < i, l[j]? ≠ some v := by
  intro l
  induction l with
  | nil => intro v i h; exact absurd h (by simp [idxOf])
  | cons a rest ih =>
    intro v i h j hj
    simp only [idxOf] at h
    by_cases hav : a = v
    · rw [if_pos hav] at h
      simp only [Option.some.injEq] at h
      omega
    · rw [if_neg hav] at h
      cases hr : idxOf v rest with
      | none => rw [hr] at h; exact absurd h (by simp)
      | some k =>
        rw [hr] at h
        simp only [Option.map_some', Option.some.injEq] at h
        subst h
        cases j with
        | zero => simpa using fun hv => hav hv
        | succ j' =>
          have := ih v k hr j' (by omega)
          simpa using this

theorem idxOf_isSome_of_mem : ∀ (l : List ℚ) (v : ℚ), v ∈ l → ∃ i, idxOf v l = some i := by
  intro l
  induction l with
  | nil => intro v h; exact absurd h (List.not_mem_nil v)
  | cons a rest ih =>
    intro v h
    simp only [idxOf]
    by_cases hav : a = v
    · exact ⟨0, by rw [if_pos hav]⟩
    · rcases List.mem_cons.mp h with hv | hrest
      · exact absurd hv.symm hav
      · obtain ⟨i, hi⟩ := ih v hrest
        exact ⟨i + 1, by rw [if_neg hav, hi]; rfl⟩

/-- Full behavior of `marginCropImage` whenever the left half has at
least one column: the result exists, its `marginSum` is the greatest
column sum, `marginX` is the first column attaining it, and the crop
keeps columns `[0, marginX)` of the original image. -/
theorem marginCropImage_spec (ops : CvOps) (img : Mat) (hw : 0 < img.cols / 2) :
    ∃ r, marginCropImage ops img = some r ∧
      (colSums (leftHalf ops img))[r.marginX]? = some r.marginSum ∧
      (∀ a ∈ colSums (leftHalf ops img), a ≤ r.marginSum) ∧
      (∀ j < r.marginX, (colSums (leftHalf ops img))[j]? ≠ some r.marginSum) ∧
      r.cropMat = img.getRegion 0 0 r.marginX img.rows := by
  have hlen : (colSums (leftHalf ops img)).length = img.cols / 2 := by
    simp [colSums, leftHalf, Mat.getRegion]
  have hne : colSums (leftHalf ops img) ≠ [] := by
    intro hnil
    rw [hnil] at hlen
    simp at hlen
    omega
  obtain ⟨m, hmax⟩ := listMax_isSome _ hne
  obtain ⟨i, hi⟩ := idxOf_isSome_of_mem _ m (listMax_mem _ m hmax)
  have hget := idxOf_getElem? _ m i hi
  refine ⟨⟨img.getRegion 0 0 i img.rows, i, ((colSums (leftHalf ops img))[i]?).getD 0⟩,
    ?_, ?_, ?_, ?_, rfl⟩
  · simp only [marginCropImage, hmax, hi]
  · simp [hget]
  · intro a ha
    have := listMax_ge _ m hmax a ha
    simpa [hget] using this
  · intro j hj
    have := idxOf_first _ m i hi j hj
    simpa [hget] using this

/-! ### Concrete sample worlds used by witnesses and counterexamples -/

/-- An assignment entry in the `processing` state, as left by
`startGrading`. -/
def procEntry : AssignmentEntry := ⟨"processing", none, []⟩

/-- A world where every stage succeeds: a two-page PDF, two extracted
regions, and grading results returned in swapped order. -/
def envOk : Env :=
  { renderResult := some ⟨"doc", 2⟩
    cloudinaryUrl := fun p i => p ++ "-" ++ toString i
    studentFound := true
    entryFound := true
    fastApiUrl := some "api"
    extractResult := some [⟨"q1", "u1"⟩, ⟨"q2", "u2"⟩]
    assignmentFound := some [⟨"q1", "rub1"⟩, ⟨"q2", "rub2"⟩, ⟨"q3", "rub3"⟩]
    gradeResult := some [⟨"q2", ["s2"], [], 3, 1⟩, ⟨"q1", [], ["w1"], 0, 2⟩]
    now := 17 }

/-- The same world with the region-extraction service failing. -/
def envExtractDown : Env := { envOk with extractResult := none }

/-- The same world with the extraction service finding no regions and
the grading service therefore returning no results. -/
def envNoRegions : Env := { envOk with extractResult := some [], gradeResult := some [] }

/-- The same world where grading returns a question id that region
extraction never reported. -/
def envGhostQuestion : Env := { envOk with gradeResult := some [⟨"q9", [], [], 0, 0⟩] }

/-! ### C1 -/

/-- C1, counterexample: in a concrete run where region extraction
fails, the error is surfaced but the attempt keeps status
`"processing"`; no write of `status = "failed"` happens (the trace
holds no snapshot with that status), contradicting the claim that
every failure path persists `status = failed`. -/
theorem c1_counterexample :
    (handlePdfUpload envExtractDown procEntry).result = .error .extractError ∧
    (handlePdfUpload envExtractDown procEntry).entry.status = "processing" ∧
    ((handlePdfUpload envExtractDown procEntry).trace.all fun ev =>
      match ev with
      | .persist s => s.status != "failed"
      | _ => true) = true := by
  refine ⟨rfl, rfl, ?_⟩
  decide

/-- C1, amended: when any stage of `handlePdfUpload` fails, the run
does not write `status` at all — the final entry keeps the prior
status and responses, every document write of the run carries the
prior status (so `failed` is never persisted and a `processing` record
stays `processing`), and the error is surfaced as an HTTP 500 reply. -/
theorem c1_failure_leaves_status_unwritten (env : Env) (entry : AssignmentEntry)
    (e : PipeError) (h : (handlePdfUpload env entry).result = .error e) :
    (handlePdfUpload env entry).entry.status = entry.status ∧
    (handlePdfUpload env entry).entry.responses = entry.responses ∧
    (∀ s, Event.persist s ∈ (handlePdfUpload env entry).trace → s.status = entry.status) ∧
    (uploadSubmission true env entry).1 = ⟨500, false⟩ := by
  rcases handlePdfUpload_shape env entry with
    ⟨e', hr⟩ | hr | ⟨urls, e', _, hr⟩ | ⟨urls, ups, qs, e', _, _, _, hr⟩ |
    ⟨urls, ups, qs, graded, resp, _, _, _, _, hr⟩
  · rw [hr]
    refine ⟨rfl, rfl, ?_, by simp [uploadSubmission, hr]⟩
    intro s hs
    simp at hs
  · rw [hr]
    refine ⟨rfl, rfl, ?_, by simp [uploadSubmission, hr]⟩
    intro s hs
    simp at hs
    subst hs
    rfl
  · rw [hr]
    refine ⟨rfl, rfl, ?_, by simp [uploadSubmission, hr]⟩
    intro s hs
    simp at hs
    subst hs
    rfl
  · rw [hr]
    refine ⟨rfl, rfl, ?_, by simp [uploadSubmission, hr]⟩
    intro s hs
    simp at hs
    subst hs
    rfl
  · rw [hr] at h
    simp at h

/-- C1 witness: the amended statement instantiated at the concrete
failing world. -/
theorem c1_witness :
    (handlePdfUpload envExtractDown procEntry).entry.status = procEntry.status ∧
    (handlePdfUpload envExtractDown procEntry).entry.responses = procEntry.responses ∧
    (∀ s, Event.persist s ∈ (handlePdfUpload envExtractDown procEntry).trace →
      s.status = procEntry.status) ∧
    (uploadSubmission true envExtractDown procEntry).1 = ⟨500, false⟩ :=
  c1_failure_leaves_status_unwritten envExtractDown procEntry .extractError rfl

/-! ### C2 -/

/-- C2, counterexample: in the fully successful concrete run, the
Cloudinary page-rendering upload (a network call) precedes the
persisted submission-date checkpoint, so the claim that the
`submissionDate` write is persisted before any network call of the run
is false. -/
theorem c2_counterexample :
    netsAfterCheckpoint (handlePdfUpload envOk procEntry).trace false = false := by
  decide

/-- C2, amended: the submission-date checkpoint is persisted after the
page-rendering upload but before the region-extraction and grading
calls: in every run, dropping the render event makes every network
call come after a persisted checkpoint, and whenever extraction was
attempted the final entry keeps `submissionDate = now`. -/
theorem c2_checkpoint_before_oracle_calls (env : Env) (entry : AssignmentEntry) :
    netsAfterCheckpoint
      ((handlePdfUpload env entry).trace.filter fun ev => !ev.isRender) false = true ∧
    ∀ urls, Event.netExtract urls ∈ (handlePdfUpload env entry).trace →
      (handlePdfUpload env entry).entry.submissionDate = some env.now := by
  rcases handlePdfUpload_shape env entry with
    ⟨e', hr⟩ | hr | ⟨urls', e', _, hr⟩ | ⟨urls', ups, qs, e', _, _, _, hr⟩ |
    ⟨urls', ups, qs, graded, resp, _, _, _, _, hr⟩ <;>
    rw [hr] <;>
    refine ⟨by simp [netsAfterCheckpoint, Event.isNet, Event.isRender, Event.isCheckpoint], ?_⟩ <;>
    intro urls hu <;> simp at hu <;> rfl

/-! ### C3 -/

/-- C3: whenever a run returns (and persists) responses, each
response's `image_url` is exactly the region-map URL recorded for
that response's `question_id` (the first `uploads` entry with that
id), and the response sequence lists question ids in the order the
grading service returned them. -/
theorem c3_merge_uses_region_map_urls (env : Env) (entry : AssignmentEntry)
    (uploads : List Upload) (graded : List GradedResult) (resp : List Response)
    (hex : env.extractResult = some uploads)
    (hgr : env.gradeResult = some graded)
    (hok : (handlePdfUpload env entry).result = .ok resp) :
    (handlePdfUpload env entry).entry.responses = resp ∧
    resp.map Response.question_id = graded.map GradedResult.question_id ∧
    ∀ r ∈ resp,
      (uploads.find? fun u => u.question_id == r.question_id).map Upload.image_url
        = some r.image_url := by
  obtain ⟨ups', graded', qs, hex', hgr', haf', hm, hent⟩ :=
    handlePdfUpload_ok_elim env entry resp hok
  rw [hex] at hex'
  rw [hgr] at hgr'
  injection hex' with h1
  injection hgr' with h2
  subst h1
  subst h2
  exact ⟨by rw [hent], mergeResponses_map_question_id _ _ _ hm,
    mergeResponses_image_url _ _ _ hm⟩

/-- C3 witness: the concrete successful run; grading answered in the
order q2, q1 and the merged responses carry u2 and u1 accordingly. -/
theorem c3_witness :
    (handlePdfUpload envOk procEntry).entry.responses
        = [⟨"q2", "u2", ["s2"], [], 3, 1⟩, ⟨"q1", "u1", [], ["w1"], 0, 2⟩] ∧
    ([⟨"q2", "u2", ["s2"], [], 3, 1⟩, ⟨"q1", "u1", [], ["w1"], 0, 2⟩] : List Response).map
        Response.question_id
      = ([⟨"q2", ["s2"], [], 3, 1⟩, ⟨"q1", [], ["w1"], 0, 2⟩] : List GradedResult).map
        GradedResult.question_id ∧
    ∀ r ∈ ([⟨"q2", "u2", ["s2"], [], 3, 1⟩, ⟨"q1", "u1", [], ["w1"], 0, 2⟩] : List Response),
      (([⟨"q1", "u1"⟩, ⟨"q2", "u2"⟩] : List Upload).find?
          fun u => u.question_id == r.question_id).map Upload.image_url
        = some r.image_url :=
  c3_merge_uses_region_map_urls envOk procEntry
    [⟨"q1", "u1"⟩, ⟨"q2", "u2"⟩]
    [⟨"q2", ["s2"], [], 3, 1⟩, ⟨"q1", [], ["w1"], 0, 2⟩]
    [⟨"q2", "u2", ["s2"], [], 3, 1⟩, ⟨"q1", "u1", [], ["w1"], 0, 2⟩]
    rfl rfl rfl

/-! ### C4 -/

/-- C4: the grading request sent to the grading service lists exactly
the question ids of the region map, in order; an assignment question
id missing from the region map is in neither the grading request nor
any returned (hence persisted) responses. -/
theorem c4_grading_request_matches_region_map (env : Env) (entry : AssignmentEntry)
    (uploads : List Upload) (qs : List Question) (qlist : List QuestionToGrade)
    (hex : env.extractResult = some uploads)
    (haf : env.assignmentFound = some qs)
    (hg : Event.netGrade qlist ∈ (handlePdfUpload env entry).trace) :
    qlist.map QuestionToGrade.question_id = uploads.map Upload.question_id ∧
    ∀ qid, qid ∈ qs.map Question.id → qid ∉ uploads.map Upload.question_id →
      qid ∉ qlist.map QuestionToGrade.question_id ∧
      ∀ resp, (handlePdfUpload env entry).result = .ok resp →
        qid ∉ resp.map Response.question_id := by
  rcases handlePdfUpload_shape env entry with
    ⟨e', hr⟩ | hr | ⟨urls', e', _, hr⟩ | ⟨urls', ups', qs', e', hex', haf', _, hr⟩ |
    ⟨urls', ups', qs', graded, resp0, hex', haf', hgr', hm, hr⟩
  · rw [hr] at hg; simp at hg
  · rw [hr] at hg; simp at hg
  · rw [hr] at hg; simp at hg
  · rw [hex] at hex'
    rw [haf] at haf'
    injection hex' with h1
    injection haf' with h2
    subst h1
    subst h2
    rw [hr] at hg
    simp at hg
    subst hg
    refine ⟨questionsToGrade_map_question_id qs uploads, ?_⟩
    intro qid _ hmiss
    refine ⟨by rwa [questionsToGrade_map_question_id qs uploads], ?_⟩
    intro resp hres
    rw [hr] at hres
    simp at hres
  · rw [hex] at hex'
    rw [haf] at haf'
    injection hex' with h1
    injection haf' with h2
    subst h1
    subst h2
    rw [hr] at hg
    simp at hg
    subst hg
    refine ⟨questionsToGrade_map_question_id qs uploads, ?_⟩
    intro qid _ hmiss
    refine ⟨by rwa [questionsToGrade_map_question_id qs uploads], ?_⟩
    intro resp hres
    rw [hr] at hres
    simp at hres
    subst hres
    intro hqmem
    rcases List.mem_map.mp hqmem with ⟨r, hr0, hq⟩
    exact hmiss (hq ▸ mergeResponses_mem_region uploads graded resp0 hm r hr0)

/-- C4 witness: in the concrete successful run, the request lists q1
and q2 in region-map order, and the unextracted q3 appears nowhere. -/
theorem c4_witness :
    (questionsToGrade [⟨"q1", "rub1"⟩, ⟨"q2", "rub2"⟩, ⟨"q3", "rub3"⟩]
        [⟨"q1", "u1"⟩, ⟨"q2", "u2"⟩]).map QuestionToGrade.question_id
      = ([⟨"q1", "u1"⟩, ⟨"q2", "u2"⟩] : List Upload).map Upload.question_id ∧
    ∀ qid,
      qid ∈ ([⟨"q1", "rub1"⟩, ⟨"q2", "rub2"⟩, ⟨"q3", "rub3"⟩] : List Question).map Question.id →
      qid ∉ ([⟨"q1", "u1"⟩, ⟨"q2", "u2"⟩] : List Upload).map Upload.question_id →
      qid ∉ (questionsToGrade [⟨"q1", "rub1"⟩, ⟨"q2", "rub2"⟩, ⟨"q3", "rub3"⟩]
          [⟨"q1", "u1"⟩, ⟨"q2", "u2"⟩]).map QuestionToGrade.question_id ∧
      ∀ resp, (handlePdfUpload envOk procEntry).result = .ok resp →
        qid ∉ resp.map Response.question_id :=
  c4_grading_request_matches_region_map envOk procEntry
    [⟨"q1", "u1"⟩, ⟨"q2", "u2"⟩]
    [⟨"q1", "rub1"⟩, ⟨"q2", "rub2"⟩, ⟨"q3", "rub3"⟩]
    (questionsToGrade [⟨"q1", "rub1"⟩, ⟨"q2", "rub2"⟩, ⟨"q3", "rub3"⟩]
      [⟨"q1", "u1"⟩, ⟨"q2", "u2"⟩])
    rfl rfl (by decide)

/-! ### C5 -/

/-- C5, counterexample: when extraction finds no regions and grading
returns no results, the run persists `status = "graded"` together with
an empty `responses` array, so `graded` does not imply non-empty
responses. -/
theorem c5_counterexample :
    (handlePdfUpload envNoRegions procEntry).entry.status = "graded" ∧
    (handlePdfUpload envNoRegions procEntry).entry.responses = [] :=
  ⟨rfl, rfl⟩

/-- C5, amended: `responses` and `status = "graded"` are written in
one single document write — any persisted snapshot carrying
`status = "graded"` (in a run that did not already start graded) is
the final state of the run and its responses are exactly the returned
merge output, so no reader observes `graded` with stale or partial
responses; however the merged responses may be empty. -/
theorem c5_graded_write_is_atomic (env : Env) (entry : AssignmentEntry)
    (hne : entry.status ≠ "graded") (s : AssignmentEntry)
    (hs : Event.persist s ∈ (handlePdfUpload env entry).trace)
    (hg : s.status = "graded") :
    (handlePdfUpload env entry).result = .ok s.responses ∧
    (handlePdfUpload env entry).entry = s := by
  rcases handlePdfUpload_shape env entry with
    ⟨e', hr⟩ | hr | ⟨urls', e', _, hr⟩ | ⟨urls', ups', qs', e', _, _, _, hr⟩ |
    ⟨urls', ups', qs', graded, resp0, hex', haf', hgr', hm, hr⟩
  · rw [hr] at hs; simp at hs
  · rw [hr] at hs
    simp at hs
    subst hs
    exact absurd hg hne
  · rw [hr] at hs
    simp at hs
    subst hs
    exact absurd hg hne
  · rw [hr] at hs
    simp at hs
    subst hs
    exact absurd hg hne
  · rw [hr] at hs
    simp at hs
    rcases hs with hs | hs
    · subst hs; exact absurd hg hne
    · subst hs; rw [hr]; exact ⟨rfl, rfl⟩

/-- C5 witness: the graded snapshot of the concrete successful run is
the final state and carries the full merge output. -/
theorem c5_witness :
    (handlePdfUpload envOk procEntry).result =
      .ok (⟨"graded", some 17,
        [⟨"q2", "u2", ["s2"], [], 3, 1⟩,
          ⟨"q1", "u1", [], ["w1"], 0, 2⟩]⟩ : AssignmentEntry).responses ∧
    (handlePdfUpload envOk procEntry).entry =
      ⟨"graded", some 17,
        [⟨"q2", "u2", ["s2"], [], 3, 1⟩, ⟨"q1", "u1", [], ["w1"], 0, 2⟩]⟩ :=
  c5_graded_write_is_atomic envOk procEntry (by decide)
    ⟨"graded", some 17, [⟨"q2", "u2", ["s2"], [], 3, 1⟩, ⟨"q1", "u1", [], ["w1"], 0, 2⟩]⟩
    (by decide) rfl

/-! ### C6 -/

/-- C6, counterexample: `updateGrades` validates against a six-value
list and persists `"submitted"`, a value also allowed by the
`studentAssignmentSchema` enum at questionModel.js lines 263-266 but
outside the claimed set {pending, processing, graded, failed} (the
enum at lines 137-141). -/
theorem c6_counterexample :
    statusAfter (.updateGrades (some "submitted")) "pending" = "submitted" ∧
    "submitted" ∈ statusEnumLast ∧
    "submitted" ∉ statusEnumMid := by
  decide

/-- C6, amended: across all status-writing operations the status
stays within the six-value set {pending, submitted, processing,
completed, graded, failed} accepted by `updateGrades`; it is not
confined to the four-value set of the claim. -/
theorem c6_status_stays_in_six_values (op : AttemptOp) (current : String)
    (h : current ∈ validStatuses) :
    statusAfter op current ∈ validStatuses := by
  cases op with
  | create => simp [statusAfter, validStatuses]
  | startGrading => simp [statusAfter, validStatuses]
  | debugUpdateSolution => simp [statusAfter, validStatuses]
  | pdfUploadSuccess => simp [statusAfter, validStatuses]
  | pdfUploadFailure => simpa [statusAfter] using h
  | updateGrades requested =>
    cases requested with
    | none => simp [statusAfter, updateGradesStatus, validStatuses]
    | some s =>
      simp only [statusAfter, updateGradesStatus]
      by_cases hc : validStatuses.contains s = true
      · rw [if_pos hc]
        exact List.mem_of_elem_eq_true hc
      · rw [if_neg hc]
        exact h

/-- C6 witness: the amended bound instantiated at the persisting of
`"submitted"` over a pending attempt. -/
theorem c6_witness :
    statusAfter (.updateGrades (some "submitted")) "pending" ∈ validStatuses :=
  c6_status_stays_in_six_values (.updateGrades (some "submitted")) "pending" (by decide)

/-! ### C7 -/

/-- C7, counterexample: the region-extraction call site passes no
options object, so no timeout bound is configured at all — the call is
not bounded by a (configurable, five-minute default) timeout. -/
theorem c7_counterexample : ¬ ∃ t, extractionRequestOptions.timeout = some t := by
  simp [extractionRequestOptions]

/-- C7, amended: no retries are performed inside the client (every run
makes at most one extraction request), but neither FastAPI call site
configures a timeout, so the remote call may wait without bound
instead of failing with a distinct Timeout error. -/
theorem c7_no_timeout_and_no_retries :
    extractionRequestOptions.timeout = none ∧
    gradingRequestOptions.timeout = none ∧
    ∀ env entry, extractCalls (handlePdfUpload env entry).trace ≤ 1 := by
  refine ⟨rfl, rfl, ?_⟩
  intro env entry
  rcases handlePdfUpload_shape env entry with
    ⟨e', hr⟩ | hr | ⟨urls', e', _, hr⟩ | ⟨urls', ups', qs', e', _, _, _, hr⟩ |
    ⟨urls', ups', qs', graded, resp0, _, _, _, _, hr⟩ <;>
    rw [hr] <;> simp [extractCalls]

/-! ### C8 -/

/-- C8: for every decodable image whose left half has at least one
column, the column sums are computed exactly over columns
`0 .. floor(W/2) - 1` of the closed binary image (summed down all
original rows), `marginSum` is their maximum, `marginX` is the first
column index attaining it, and the returned crop is the original
image restricted to columns `[0, marginX)`. -/
theorem c8_left_half_argmax_crop (ops : CvOps) (img : Mat) (hw : 0 < img.cols / 2) :
    colSums (leftHalf ops img)
      = ((List.range (img.cols / 2)).map fun x =>
          ((List.range img.rows).map fun y => (closedOf ops img).atRaw y x).sum) ∧
    ∃ r, marginCropImage ops img = some r ∧
      (colSums (leftHalf ops img))[r.marginX]? = some r.marginSum ∧
      (∀ a ∈ colSums (leftHalf ops img), a ≤ r.marginSum) ∧
      (∀ j < r.marginX, (colSums (leftHalf ops img))[j]? ≠ some r.marginSum) ∧
      r.cropMat.rows = img.rows ∧ r.cropMat.cols = r.marginX ∧
      ∀ y x, r.cropMat.atRaw y x = img.atRaw y x := by
  constructor
  · simp [colSums, leftHalf, Mat.getRegion]
  · obtain ⟨r, h1, h2, h3, h4, h5⟩ := marginCropImage_spec ops img hw
    refine ⟨r, h1, h2, h3, h4, by rw [h5]; rfl, by rw [h5]; rfl, ?_⟩
    intro y x
    rw [h5]
    simp [Mat.getRegion]

/-- Identity-valued OpenCV primitives used to evaluate the segmenter
on concrete inputs. -/
def idOps : CvOps := ⟨id, id, id, id, id, fun _ _ m => m⟩

/-- A 2×4 all-ones image. -/
def onesImg : Mat := ⟨2, 4, fun _ _ => 1⟩

/-- C8 witness: the concrete 2×4 image through identity primitives. -/
theorem c8_witness :
    0 < onesImg.cols / 2 ∧
    (colSums (leftHalf idOps onesImg)
        = ((List.range (onesImg.cols / 2)).map fun x =>
            ((List.range onesImg.rows).map fun y => (closedOf idOps onesImg).atRaw y x).sum) ∧
    ∃ r, marginCropImage idOps onesImg = some r ∧
      (colSums (leftHalf idOps onesImg))[r.marginX]? = some r.marginSum ∧
      (∀ a ∈ colSums (leftHalf idOps onesImg), a ≤ r.marginSum) ∧
      (∀ j < r.marginX, (colSums (leftHalf idOps onesImg))[j]? ≠ some r.marginSum) ∧
      r.cropMat.rows = onesImg.rows ∧ r.cropMat.cols = r.marginX ∧
      ∀ y x, r.cropMat.atRaw y x = onesImg.atRaw y x) :=
  ⟨by decide, c8_left_half_argmax_crop idOps onesImg (by decide)⟩

/-! ### C9 -/

/-- C9: when the absolute Sobel image has maximum exactly 0, the
rescale divisor is 1 (never 0), every in-bounds pixel of the scaled
image is 0, and (whenever the left half is non-degenerate) the
segmenter still returns a crop — no division by zero and no crash. -/
theorem c9_blank_image_safe (ops : CvOps) (img : Mat)
    (hmax : (sobelAbsOf ops img).maxVal = 0) (hw : 0 < img.cols / 2) :
    sobelDivisor (sobelAbsOf ops img).maxVal = 1 ∧
    (∀ y, y < (scaledOf ops img).rows → ∀ x, x < (scaledOf ops img).cols →
      (scaledOf ops img).atRaw y x = 0) ∧
    ∃ r, marginCropImage ops img = some r := by
  refine ⟨by rw [hmax]; simp [sobelDivisor], ?_, ?_⟩
  · intro y hy x hx
    have hy' : y < (sobelAbsOf ops img).rows := hy
    have hx' : x < (sobelAbsOf ops img).cols := hx
    have hmem : (sobelAbsOf ops img).atRaw y x ∈ (sobelAbsOf ops img).entries :=
      List.mem_flatMap.mpr ⟨y, List.mem_range.mpr hy',
        List.mem_map.mpr ⟨x, List.mem_range.mpr hx', rfl⟩⟩
    obtain ⟨mv, hmv⟩ := listMax_isSome _ (List.ne_nil_of_mem hmem)
    have hmv0 : mv = 0 := by
      have h := hmax
      simp only [Mat.maxVal, hmv, Option.getD_some] at h
      exact h
    have hle := listMax_ge _ mv hmv _ hmem
    have hge : (0 : ℚ) ≤ (sobelAbsOf ops img).atRaw y x := by
      simp [sobelAbsOf, Mat.absMat]
    have hzero : (sobelAbsOf ops img).atRaw y x = 0 :=
      le_antisymm (hmv0 ▸ hle) hge
    show (sobelAbsOf ops img).atRaw y x
        / sobelDivisor (sobelAbsOf ops img).maxVal * 255 = 0
    rw [hzero]
    simp
  · obtain ⟨r, h1, _⟩ := marginCropImage_spec ops img hw
    exact ⟨r, h1⟩

/-- Primitives whose Sobel stage returns the all-zero image, used to
exercise the degenerate branch on a concrete input. -/
def zeroSobelOps : CvOps :=
  ⟨id, id, fun m => ⟨m.rows, m.cols, fun _ _ => 0⟩, id, id, fun _ _ m => m⟩

/-- C9 witness: the blank-gradient case on the concrete 2×4 image. -/
theorem c9_witness :
    (sobelAbsOf zeroSobelOps onesImg).maxVal = 0 ∧ 0 < onesImg.cols / 2 ∧
    (sobelDivisor (sobelAbsOf zeroSobelOps onesImg).maxVal = 1 ∧
    (∀ y, y < (scaledOf zeroSobelOps onesImg).rows →
      ∀ x, x < (scaledOf zeroSobelOps onesImg).cols →
      (scaledOf zeroSobelOps onesImg).atRaw y x = 0) ∧
    ∃ r, marginCropImage zeroSobelOps onesImg = some r) :=
  ⟨by decide, by decide,
    c9_blank_image_safe zeroSobelOps onesImg (by decide) (by decide)⟩

/-! ### C10 -/

/-- C10: when the grading service returns a result whose question id
is absent from the extraction uploads, the merge lookup misses, the
whole run throws (a TypeError on `orig.image_url`), and no graded
state is persisted: the final entry keeps its prior status and
responses and every document write of the run carries the prior
status. -/
theorem c10_unmatched_grading_result_aborts (env : Env) (entry : AssignmentEntry)
    (up : UploadResult) (f : String) (qs : List Question)
    (uploads : List Upload) (graded : List GradedResult) (gr : GradedResult)
    (hrr : env.renderResult = some up) (hsf : env.studentFound = true)
    (hef : env.entryFound = true) (hfa : env.fastApiUrl = some f)
    (haf : env.assignmentFound = some qs)
    (hex : env.extractResult = some uploads) (hgrr : env.gradeResult = some graded)
    (hmem : gr ∈ graded) (hmiss : gr.question_id ∉ uploads.map Upload.question_id) :
    (handlePdfUpload env entry).result = .error .mergeTypeError ∧
    (handlePdfUpload env entry).entry.status = entry.status ∧
    (handlePdfUpload env entry).entry.responses = entry.responses ∧
    ∀ s, Event.persist s ∈ (handlePdfUpload env entry).trace → s.status = entry.status := by
  have hm := mergeResponses_none_of_missing uploads graded gr hmem hmiss
  rcases env with ⟨rr, cu, sf, ef, fa, er, af, gre, now⟩
  simp only at hrr hsf hef hfa haf hex hgrr
  subst hrr hsf hef hfa haf hex hgrr
  refine ⟨by simp [handlePdfUpload, hm], by simp [handlePdfUpload, hm],
    by simp [handlePdfUpload, hm], ?_⟩
  intro s hs
  simp [handlePdfUpload, hm] at hs
  subst hs
  rfl

/-- C10 witness: grading answers for q9, which extraction never
reported; the concrete run aborts before the graded write. -/
theorem c10_witness :
    (handlePdfUpload envGhostQuestion procEntry).result = .error .mergeTypeError ∧
    (handlePdfUpload envGhostQuestion procEntry).entry.status = procEntry.status ∧
    (handlePdfUpload envGhostQuestion procEntry).entry.responses = procEntry.responses ∧
    ∀ s, Event.persist s ∈ (handlePdfUpload envGhostQuestion procEntry).trace →
      s.status = procEntry.status :=
  c10_unmatched_grading_result_aborts envGhostQuestion procEntry
    ⟨"doc", 2⟩ "api" [⟨"q1", "rub1"⟩, ⟨"q2", "rub2"⟩, ⟨"q3", "rub3"⟩]
    [⟨"q1", "u1"⟩, ⟨"q2", "u2"⟩] [⟨"q9", [], [], 0, 0⟩] ⟨"q9", [], [], 0, 0⟩
    rfl rfl rfl rfl rfl rfl rfl (by decide) (by decide)

end TickBackend
